import Mathlib

/-!
Verification development for the Iris tile data plane (IrisExamples repository).

The repository ships the Iris Core API headers (IrisCore.hpp, IrisTypes.hpp)
together with platform glue that calls into a precompiled rendering engine.
The Buffer, pyramid-index, tile-cache and load-scheduler operations are
declared (with documented contracts) in the headers but their bodies live in
the precompiled engine, so the executable behaviour below is modelled from
the specification's description of those contracts.  Structures that do
appear in src/IrisCore/IrisTypes.hpp (LayerExtent, Extent, SlideOpenInfo
defaults) are embedded directly from the source.
-/

namespace Iris

/-- Strength tag of a buffer: STRONG buffers own and may reallocate their
storage; WEAK buffers borrow foreign memory they may neither free nor
resize.  From the IrisCore.hpp buffer documentation. -/
inductive Strength where
  | STRONG
  | WEAK
deriving DecidableEq, Repr

/-- Error raised by buffer operations.  A WEAK buffer's write beyond its
fixed capacity fails with BufferOverflow (IrisCore.hpp: Buffer_write_into_buffer
throws when a weak buffer has insufficient space). -/
inductive BufferError where
  | BufferOverflow
deriving DecidableEq, Repr

/-- Modelled from the spec: the __INTERNAL__Buffer class behind the
Iris::Buffer shared pointer is not in src/ (IrisCore.hpp only declares the
API).  A buffer is a contiguous byte block with a total allocated
`capacity`, a count `size` of bytes currently written, its list of valid
bytes, and a strength tag. -/
structure Buffer where
  strength : Strength
  capacity : Nat
  size     : Nat
  data     : List Nat
deriving DecidableEq, Repr

/-- Modelled from the spec: Create_strong_buffer() — a STRONG buffer with
capacity 0 and size 0, no backed memory. -/
def Create_strong_buffer_empty : Buffer :=
  { strength := .STRONG, capacity := 0, size := 0, data := [] }

/-- Modelled from the spec: Create_strong_buffer(size_t) — a STRONG blank
buffer with the given initial capacity and size 0. -/
def Create_strong_buffer (buffer_size_in_bytes : Nat) : Buffer :=
  { strength := .STRONG, capacity := buffer_size_in_bytes, size := 0, data := [] }

/-- Modelled from the spec: Copy_strong_buffer_from_data — a STRONG buffer
holding a private copy of the source bytes. -/
def Copy_strong_buffer_from_data (src : List Nat) : Buffer :=
  { strength := .STRONG, capacity := src.length, size := src.length, data := src }

/-- Modelled from the spec: Wrap_weak_buffer_fom_data (name as in
IrisCore.hpp) — a WEAK buffer referencing the caller-owned bytes. -/
def Wrap_weak_buffer_fom_data (src : List Nat) : Buffer :=
  { strength := .WEAK, capacity := src.length, size := src.length, data := src }

/-- Growth policy of a STRONG buffer: at least the needed size, with
doubling for amortized growth (the spec permits over-allocation). -/
def grownCapacity (cap needed : Nat) : Nat :=
  max needed (2 * cap)

/-- Modelled from the spec: Buffer_write_into_buffer writes `bytes` at the
current size offset.  WEAK: if `capacity - size < bytes` the operation
fails with BufferOverflow and the buffer is untouched.  STRONG: if
`capacity - size < bytes` the capacity grows to at least `size + bytes`;
size advances by the written length.  The pair returned is the post-state
of the buffer and the error, if any. -/
def Buffer_write_into_buffer (b : Buffer) (bytes : List Nat) :
    Buffer × Option BufferError :=
  match b.strength with
  | .WEAK =>
      if b.capacity - b.size < bytes.length then
        (b, some .BufferOverflow)
      else
        ({ b with size := b.size + bytes.length, data := b.data ++ bytes }, none)
  | .STRONG =>
      let cap :=
        if b.capacity - b.size < bytes.length then
          grownCapacity b.capacity (b.size + bytes.length)
        else b.capacity
      ({ b with capacity := cap,
                size := b.size + bytes.length,
                data := b.data ++ bytes }, none)

/-- Modelled from the spec: read_view / Buffer_get_data — the current
(data, size) pair of the buffer. -/
def Buffer_get_data (b : Buffer) : List Nat × Nat :=
  (b.data, b.size)

/-- Modelled from the spec: strengthen converts a WEAK buffer to STRONG in
place, preserving its bytes bit-for-bit. -/
def strengthen (b : Buffer) : Buffer :=
  { b with strength := .STRONG }

/-- Sequential application of Buffer_write_into_buffer over a list of
blocks; stops at the first error. -/
def writeSeq (b : Buffer) (blocks : List (List Nat)) : Buffer × Option BufferError :=
  match blocks with
  | [] => (b, none)
  | blk :: rest =>
      match Buffer_write_into_buffer b blk with
      | (b', none) => writeSeq b' rest
      | (b', some e) => (b', some e)

/-!
Pyramid index.  LayerExtent and Extent are embedded from
src/IrisCore/IrisTypes.hpp (lines 148-168), including the C++ default
member initializers.  The scale and downsample floats are modelled as
rationals; no floating-point arithmetic is performed on them.
-/

/-- Slide objective layer extent, from IrisTypes.hpp: number of horizontal
and vertical 256-pixel tiles, zoom scale, and reciprocal downsample.  The
C++ defaults are xTiles = 1, yTiles = 1, scale = 1.f, downsample = 1.f. -/
structure LayerExtent where
  xTiles     : Nat := 1
  yTiles     : Nat := 1
  scale      : ℚ := 1
  downsample : ℚ := 1
deriving DecidableEq, Repr

/-- Extent of a whole slide image, from IrisTypes.hpp: base layer width and
height in pixels (defaults 1) and the layer extent list (default empty). -/
structure Extent where
  width  : Nat := 1
  height : Nat := 1
  layers : List LayerExtent := []
deriving DecidableEq, Repr

/-- A default-constructed LayerExtent, as produced by the C++ default
member initializers. -/
def defaultLayerExtent : LayerExtent := {}

/-- A default-constructed Extent, as produced by the C++ default member
initializers. -/
def defaultExtent : Extent := {}

/-- Error raised by pyramid-index addressing outside a layer's tile grid. -/
inductive PyramidError where
  | OutOfRange
deriving DecidableEq, Repr

/-- Modelled from the spec: tile_count(layer) = xTiles * yTiles.  The
pyramid-index functions are declared behaviour of the engine, not present
in src/. -/
def tile_count (l : LayerExtent) : Nat :=
  l.xTiles * l.yTiles

/-- Modelled from the spec: tile_id(layer, x, y) = y * xTiles(layer) + x in
row-major order, requiring x < xTiles and y < yTiles, else OutOfRange.
The pyramid-index functions are declared behaviour of the engine, not
present in src/. -/
def tile_id (l : LayerExtent) (x y : Nat) : Except PyramidError Nat :=
  if x < l.xTiles ∧ y < l.yTiles then
    .ok (y * l.xTiles + x)
  else
    .error .OutOfRange

/-- Downsample ordering invariant of a pyramid: layers run from most
zoomed-out to most detailed, so the downsample factors are non-increasing
along the layer list. -/
def downsampleOrdered (e : Extent) : Prop :=
  List.Chain' (fun a b => b ≤ a) (e.layers.map LayerExtent.downsample)

/-!
Constants for the slide cache capacity documentation check.  The tile edge
length (256 pixels) is fixed throughout IrisTypes.hpp ("the number of 256
pixel tiles"); RGBA pixels occupy 4 bytes (FORMAT_R8G8B8A8: four 8-bit
channels); the default cache capacity is the default member initializer of
SlideOpenInfo::capacity (IrisTypes.hpp line 261).
-/

/-- Tile edge length in pixels, from the IrisTypes.hpp tile descriptions. -/
def tileEdgePixels : Nat := 256

/-- Bytes per RGBA pixel: four 8-bit channels (FORMAT_R8G8B8A8). -/
def rgbaBytesPerPixel : Nat := 4

/-- Default SlideOpenInfo::capacity, from IrisTypes.hpp line 261. -/
def defaultCacheCapacity : Nat := 1000

/-- Bytes of decompressed RGBA data in one 256 x 256 tile. -/
def rgbaTileBytes : Nat := tileEdgePixels * tileEdgePixels * rgbaBytesPerPixel

/-- RAM consumed by a full default-capacity cache of RGBA tiles. -/
def defaultCacheBytes : Nat := defaultCacheCapacity * rgbaTileBytes

/-- The "2 GB of RAM" figure stated in the SlideOpenInfo::capacity comment
(IrisTypes.hpp line 259), read as binary gigabytes. -/
def twoGigabytes : Nat := 2 * 2 ^ 30

/-!
Tile cache.  Modelled from the spec: the cache behind viewer_open_slide /
SlideOpenInfo (capacity-bounded mapping from (layer, tile) to Buffer with
LRU eviction and at-most-one-in-flight-load-per-key semantics) lives in
the precompiled engine; only its configuration surface (SlideOpenInfo) is
in src/.  Keys are (LayerIndex, TileIndex) pairs.
-/

/-- Composite cache key: a TileIndex is unique only within a LayerIndex. -/
abbrev Key := Nat × Nat

/-- Per-entry state machine of the cache: ABSENT, PENDING (decode in
flight), READY (buffer cached), EVICTED. -/
inductive EntryState where
  | ABSENT
  | PENDING
  | READY (buf : Buffer)
  | EVICTED
deriving DecidableEq, Repr

/-- True exactly on READY states. -/
def EntryState.isReady : EntryState → Bool
  | .READY _ => true
  | _ => false

/-- True exactly on PENDING states. -/
def EntryState.isPending : EntryState → Bool
  | .PENDING => true
  | _ => false

/-- Modelled from the spec: the engine's tile cache state.  `entries` is
the key-to-state mapping (an association list with no duplicate keys) and
`readyOrder` records the READY keys from most recently touched to least
recently touched; `capacity` bounds the READY entry count. -/
structure TileCache where
  capacity   : Nat
  entries    : List (Key × EntryState)
  readyOrder : List Key
deriving DecidableEq, Repr

/-- A freshly opened slide cache with the given capacity and no entries. -/
def emptyCache (cap : Nat) : TileCache :=
  { capacity := cap, entries := [], readyOrder := [] }

/-- Update an association list at a key, replacing the existing binding or
appending a new one. -/
def updateAssoc (l : List (Key × EntryState)) (k : Key) (s : EntryState) :
    List (Key × EntryState) :=
  match l with
  | [] => [(k, s)]
  | (k', s') :: rest =>
      if k' = k then (k, s) :: rest else (k', s') :: updateAssoc rest k s

/-- State of the cache entry at a key; a key with no entry is ABSENT. -/
def stateOf (c : TileCache) (k : Key) : EntryState :=
  match c.entries.lookup k with
  | some s => s
  | none => .ABSENT

/-- Set the entry state at a key, leaving the recency order untouched. -/
def setEntry (c : TileCache) (k : Key) (s : EntryState) : TileCache :=
  { c with entries := updateAssoc c.entries k s }

/-- Result of begin_load: a fresh load ticket, "already in flight" for a
PENDING entry, or "already ready" when the tile needs no load. -/
inductive BeginLoadResult where
  | ticket
  | alreadyInFlight
  | alreadyReady
deriving DecidableEq, Repr

/-- Modelled from the spec: begin_load(layer, tile) — if the entry is
ABSENT or EVICTED it transitions to PENDING and a load ticket is returned;
if already PENDING it returns "already in flight" without a second ticket;
a READY entry needs no load. -/
def begin_load (c : TileCache) (k : Key) : TileCache × BeginLoadResult :=
  match stateOf c k with
  | .ABSENT  => (setEntry c k .PENDING, .ticket)
  | .EVICTED => (setEntry c k .PENDING, .ticket)
  | .PENDING => (c, .alreadyInFlight)
  | .READY _ => (c, .alreadyReady)

/-- Evict the least-recently-touched READY entry: mark it EVICTED and drop
it from the recency order.  A cache with no READY entry is unchanged. -/
def evictLRU (c : TileCache) : TileCache :=
  match c.readyOrder.getLast? with
  | none => c
  | some victim =>
      { setEntry c victim .EVICTED with readyOrder := c.readyOrder.dropLast }

/-- Modelled from the spec: complete_load(layer, tile, buffer) — a PENDING
entry transitions to READY storing the buffer and its recency marker is
touched; if the insertion would exceed `capacity` READY entries the
least-recently-touched READY entry is evicted first.  PENDING entries are
never evicted.  A non-PENDING entry is left unchanged. -/
def complete_load (c : TileCache) (k : Key) (b : Buffer) : TileCache :=
  match stateOf c k with
  | .PENDING =>
      let c1 := if c.capacity ≤ c.readyOrder.length then evictLRU c else c
      { setEntry c1 k (.READY b) with readyOrder := k :: c1.readyOrder }
  | _ => c

/-- Modelled from the spec: abort_load(layer, tile) — a PENDING entry
transitions back to ABSENT; other states are left unchanged. -/
def abort_load (c : TileCache) (k : Key) : TileCache :=
  match stateOf c k with
  | .PENDING => setEntry c k .ABSENT
  | _ => c

/-- Result of a non-blocking cache lookup. -/
inductive LookupResult where
  | hit (buf : Buffer)
  | miss
deriving DecidableEq, Repr

/-- Modelled from the spec: lookup(layer, tile) — non-blocking; a READY
entry is a hit and its recency marker is touched; ABSENT, PENDING and
EVICTED entries report a miss without blocking. -/
def lookup (c : TileCache) (k : Key) : TileCache × LookupResult :=
  match stateOf c k with
  | .READY b => ({ c with readyOrder := k :: c.readyOrder.erase k }, .hit b)
  | _ => (c, .miss)

/-- Number of PENDING entries recorded for a key in the entry list. -/
def pendingEntryCount (c : TileCache) (k : Key) : Nat :=
  (c.entries.filter (fun e => decide (e.1 = k) && e.2.isPending)).length

/-- Well-formedness of the key map: the association list binds each key at
most once. -/
def keysNodup (c : TileCache) : Prop :=
  (c.entries.map Prod.fst).Nodup

/-- Soundness of the recency order: every key it mentions is READY. -/
def readyOrderSound (c : TileCache) : Prop :=
  ∀ q ∈ c.readyOrder, (stateOf c q).isReady = true

/-- Cache states reachable from a freshly opened slide cache through the
cache operations. -/
inductive ReachableCache : TileCache → Prop where
  | empty (cap : Nat) : ReachableCache (emptyCache cap)
  | load (c : TileCache) (k : Key) :
      ReachableCache c → ReachableCache (begin_load c k).1
  | complete (c : TileCache) (k : Key) (b : Buffer) :
      ReachableCache c → ReachableCache (complete_load c k b)
  | abort (c : TileCache) (k : Key) :
      ReachableCache c → ReachableCache (abort_load c k)
  | look (c : TileCache) (k : Key) :
      ReachableCache c → ReachableCache (lookup c k).1

/-- Insert one READY tile: begin its load and immediately complete it with
the buffer assigned to the key. -/
def insertTile (bf : Key → Buffer) (c : TileCache) (k : Key) : TileCache :=
  complete_load (begin_load c k).1 k (bf k)

/-- Insert a list of READY tiles in order, with no lookups in between. -/
def insertTiles (bf : Key → Buffer) (c : TileCache) (ks : List Key) : TileCache :=
  ks.foldl (insertTile bf) c

/-!
Load scheduler / stale filter.  Modelled from the spec: on a cache miss
the request layer is compared against the live high-resolution layer index
HR_index; only layer = HR_index and layer = HR_index - 1 are accepted,
any other miss is dropped silently without touching the cache.
-/

/-- Outcome of dispatching a cache-miss request: either begin_load was
called (with its result) or the request was dropped as stale.  A stale
drop is deliberately not an error. -/
inductive DispatchOutcome where
  | loadRequested (r : BeginLoadResult)
  | droppedStale
deriving DecidableEq, Repr

/-- Modelled from the spec: the Stale Filter's acceptance test — a miss
for `layer` is accepted against the HR_index value `hr` read at dispatch
time exactly when layer = hr or layer = hr - 1 (one level coarser). -/
def staleFilterAccepts (hr layer : Nat) : Bool :=
  layer = hr ∨ layer = hr - 1

/-- Modelled from the spec: dispatch of a cache-miss request (layer, tile)
— when the stale filter accepts the layer, begin_load is called on the
cache; otherwise the request is dropped, the cache untouched, and no error
reported. -/
def dispatch_miss (c : TileCache) (hr : Nat) (k : Key) :
    TileCache × DispatchOutcome :=
  if staleFilterAccepts hr k.1 then
    ((begin_load c k).1, .loadRequested (begin_load c k).2)
  else
    (c, .droppedStale)

/-!
Viewer slide handling.  Modelled from the spec: the __INTERNAL__Viewer and
__INTERNAL__Slide classes live in the precompiled engine; IrisCore.hpp
documents viewer_close_slide ("Nothing happens if no slide is loaded") and
viewer_get_active_slide ("Returns a Slide nullptr on failure").
-/

/-- Modelled from the spec: a loaded slide, carrying its pyramid geometry
and the cache capacity it was opened with. -/
structure Slide where
  extent   : Extent
  capacity : Nat
deriving DecidableEq, Repr

/-- Modelled from the spec: the viewer state visible to the slide API — the
active slide handle (none when no slide is loaded) and the tile cache
serving it. -/
structure ViewerState where
  activeSlide : Option Slide
  cache       : TileCache
deriving DecidableEq, Repr

/-- Modelled from the spec: slide close flushes all cache entries to
ABSENT, aborting PENDING tickets and releasing READY buffers. -/
def clearCache (c : TileCache) : TileCache :=
  { c with entries := [], readyOrder := [] }

/-- Modelled from the spec: viewer_close_slide — closes the current slide,
flushing the cache; nothing happens if no slide is loaded. -/
def viewer_close_slide (v : ViewerState) : ViewerState :=
  match v.activeSlide with
  | none => v
  | some _ => { v with activeSlide := none, cache := clearCache v.cache }

/-- Modelled from the spec: viewer_get_active_slide — the current slide
handle, or a null handle (none) on failure, in particular when no slide is
open; never a partially valid handle. -/
def viewer_get_active_slide (v : ViewerState) : Option Slide :=
  v.activeSlide

/-!
Helper lemmas about the association-list map underlying the cache.
-/

theorem lookup_updateAssoc_self (l : List (Key × EntryState)) (k : Key) (s : EntryState) :
    (updateAssoc l k s).lookup k = some s := by
  induction l with
  | nil => simp [updateAssoc]
  | cons e rest ih =>
      obtain ⟨k', s'⟩ := e
      by_cases h : k' = k
      · simp [updateAssoc, h]
      · have hne : (k == k') = false :=
          beq_eq_false_iff_ne.mpr fun hc => h hc.symm
        simp [updateAssoc, h, List.lookup, hne, ih]

theorem lookup_updateAssoc_ne (l : List (Key × EntryState)) (k q : Key) (s : EntryState)
    (h : q ≠ k) : (updateAssoc l k s).lookup q = l.lookup q := by
  have hne : (q == k) = false := beq_eq_false_iff_ne.mpr h
  induction l with
  | nil => simp [updateAssoc, List.lookup, hne]
  | cons e rest ih =>
      obtain ⟨k', s'⟩ := e
      by_cases hk : k' = k
      · subst hk
        simp [updateAssoc, List.lookup, hne]
      · simp [updateAssoc, hk, List.lookup, ih]

theorem stateOf_setEntry_self (c : TileCache) (k : Key) (s : EntryState) :
    stateOf (setEntry c k s) k = s := by
  simp [stateOf, setEntry, lookup_updateAssoc_self]

theorem stateOf_setEntry_ne (c : TileCache) (k q : Key) (s : EntryState) (h : q ≠ k) :
    stateOf (setEntry c k s) q = stateOf c q := by
  simp [stateOf, setEntry, lookup_updateAssoc_ne _ _ _ _ h]

theorem setEntry_capacity (c : TileCache) (k : Key) (s : EntryState) :
    (setEntry c k s).capacity = c.capacity := rfl

theorem setEntry_readyOrder (c : TileCache) (k : Key) (s : EntryState) :
    (setEntry c k s).readyOrder = c.readyOrder := rfl

/-- C1: for every WEAK buffer wrapping N bytes, a write request for more
bytes than the remaining capacity (capacity - size < bytes) fails with
BufferOverflow, does not grow the buffer, and leaves size unchanged. -/
theorem weak_buffer_write_overflow (b : Buffer) (bytes : List Nat)
    (hw : b.strength = .WEAK) (hov : b.capacity - b.size < bytes.length) :
    (Buffer_write_into_buffer b bytes).2 = some .BufferOverflow ∧
    (Buffer_write_into_buffer b bytes).1 = b ∧
    (Buffer_write_into_buffer b bytes).1.size = b.size ∧
    (Buffer_write_into_buffer b bytes).1.capacity = b.capacity := by
  simp [Buffer_write_into_buffer, hw, hov]

/-- Witness for C1: a WEAK buffer wrapping three bytes rejects a
two-byte write with BufferOverflow, untouched. -/
theorem weak_buffer_write_overflow_witness :
    (Buffer_write_into_buffer (Wrap_weak_buffer_fom_data [3, 1, 4]) [1, 5]).2 =
      some .BufferOverflow ∧
    (Buffer_write_into_buffer (Wrap_weak_buffer_fom_data [3, 1, 4]) [1, 5]).1 =
      Wrap_weak_buffer_fom_data [3, 1, 4] ∧
    (Buffer_write_into_buffer (Wrap_weak_buffer_fom_data [3, 1, 4]) [1, 5]).1.size =
      (Wrap_weak_buffer_fom_data [3, 1, 4]).size ∧
    (Buffer_write_into_buffer (Wrap_weak_buffer_fom_data [3, 1, 4]) [1, 5]).1.capacity =
      (Wrap_weak_buffer_fom_data [3, 1, 4]).capacity :=
  weak_buffer_write_overflow (Wrap_weak_buffer_fom_data [3, 1, 4]) [1, 5]
    (by decide) (by decide)

/-- Single STRONG write: never fails, appends the bytes, advances size,
and when growth was needed the new capacity is at least size + bytes. -/
theorem strong_write_step (b : Buffer) (bytes : List Nat) (hs : b.strength = .STRONG) :
    (Buffer_write_into_buffer b bytes).2 = none ∧
    (Buffer_write_into_buffer b bytes).1.strength = .STRONG ∧
    (Buffer_write_into_buffer b bytes).1.data = b.data ++ bytes ∧
    (Buffer_write_into_buffer b bytes).1.size = b.size + bytes.length ∧
    (b.capacity - b.size < bytes.length →
      b.size + bytes.length ≤ (Buffer_write_into_buffer b bytes).1.capacity) := by
  refine ⟨?_, ?_, ?_, ?_, ?_⟩ <;>
    simp [Buffer_write_into_buffer, hs, grownCapacity]
  intro h
  simp [h]

/-- Sequential STRONG writes: never fail, preserve strength, and append
the blocks in order while summing the lengths into the size. -/
theorem writeSeq_strong (blocks : List (List Nat)) (b : Buffer)
    (hs : b.strength = .STRONG) :
    (writeSeq b blocks).2 = none ∧
    (writeSeq b blocks).1.strength = .STRONG ∧
    (writeSeq b blocks).1.data = b.data ++ blocks.flatten ∧
    (writeSeq b blocks).1.size = b.size + (blocks.map List.length).sum := by
  induction blocks generalizing b with
  | nil => simp [writeSeq, hs]
  | cons blk rest ih =>
      obtain ⟨h1, h2, h3, h4, _⟩ := strong_write_step b blk hs
      cases hw : Buffer_write_into_buffer b blk with
      | mk b' err =>
        rw [hw] at h1 h2 h3 h4
        simp only at h1 h2 h3 h4
        subst h1
        obtain ⟨i1, i2, i3, i4⟩ := ih b' h2
        refine ⟨?_, ?_, ?_, ?_⟩
        · simp only [writeSeq, hw]
          exact i1
        · simp only [writeSeq, hw]
          exact i2
        · simp only [writeSeq, hw]
          rw [i3, h3]
          simp [List.append_assoc]
        · simp only [writeSeq, hw]
          rw [i4, h4]
          simp
          omega

/-- C5: for every STRONG buffer and every sequence of write calls, no
previously written byte is lost: a write needing more than the remaining
capacity grows capacity to at least size + bytes, every write advances
size by the written length and never fails, and read_view after the
writes returns exactly the concatenation of the written blocks in order. -/
theorem strong_buffer_growth (b : Buffer) (bytes : List Nat) (cap : Nat)
    (blocks : List (List Nat)) (hs : b.strength = .STRONG) :
    (b.capacity - b.size < bytes.length →
      b.size + bytes.length ≤ (Buffer_write_into_buffer b bytes).1.capacity) ∧
    (Buffer_write_into_buffer b bytes).1.size = b.size + bytes.length ∧
    (Buffer_write_into_buffer b bytes).2 = none ∧
    (Buffer_write_into_buffer b bytes).1.data = b.data ++ bytes ∧
    (writeSeq b blocks).2 = none ∧
    (writeSeq b blocks).1.data = b.data ++ blocks.flatten ∧
    Buffer_get_data (writeSeq (Create_strong_buffer cap) blocks).1 =
      (blocks.flatten, (blocks.map List.length).sum) := by
  obtain ⟨a1, _, a3, a4, a5⟩ := strong_write_step b bytes hs
  obtain ⟨w1, _, w3, _⟩ := writeSeq_strong blocks b hs
  obtain ⟨_, _, v3, v4⟩ := writeSeq_strong blocks (Create_strong_buffer cap) rfl
  refine ⟨a5, a4, a1, a3, w1, w3, ?_⟩
  simp only [Buffer_get_data, Prod.mk.injEq]
  constructor
  · simpa [Create_strong_buffer] using v3
  · simpa [Create_strong_buffer] using v4

/-- Witness for C5: writing three blocks into a fresh one-byte STRONG
buffer yields their concatenation, and an overflowing write grew the
capacity to hold all pending bytes. -/
theorem strong_buffer_growth_witness :
    Buffer_get_data (writeSeq (Create_strong_buffer 1) [[1, 2], [3], [4, 5, 6]]).1 =
      ([1, 2, 3, 4, 5, 6], ([[1, 2], [3], [4, 5, 6]].map List.length).sum) ∧
    (Create_strong_buffer 1).size + [7, 8].length ≤
      (Buffer_write_into_buffer (Create_strong_buffer 1) [7, 8]).1.capacity :=
  ⟨(strong_buffer_growth (Create_strong_buffer 1) [9] 1 [[1, 2], [3], [4, 5, 6]]
      rfl).2.2.2.2.2.2,
   (strong_buffer_growth (Create_strong_buffer 1) [7, 8] 0 [] rfl).1 (by decide)⟩

/-- C6: for every layer and all coordinates x, y inside the layer's tile
grid, tile_id(layer, x, y) = y * xTiles(layer) + x in row-major order;
for any coordinates outside those bounds the operation fails with
OutOfRange. -/
theorem tile_id_row_major (l : LayerExtent) (x y : Nat) :
    (x < l.xTiles → y < l.yTiles →
      tile_id l x y = .ok (y * l.xTiles + x)) ∧
    (¬(x < l.xTiles ∧ y < l.yTiles) →
      tile_id l x y = .error .OutOfRange) := by
  constructor
  · intro hx hy
    simp [tile_id, hx, hy]
  · intro h
    simp only [tile_id, if_neg h]

/-- Witness for C6: in a 3 x 4 tile grid, coordinate (2, 3) maps to tile
11 = 3 * 3 + 2 and the out-of-range coordinate (3, 0) fails. -/
theorem tile_id_row_major_witness :
    tile_id ⟨3, 4, 1, 1⟩ 2 3 = .ok 11 ∧
    tile_id ⟨3, 4, 1, 1⟩ 3 0 = .error .OutOfRange :=
  ⟨((tile_id_row_major ⟨3, 4, 1, 1⟩ 2 3).1 (by decide) (by decide)).trans rfl,
   (tile_id_row_major ⟨3, 4, 1, 1⟩ 3 0).2 (by decide)⟩

/-- C7: at 256 x 256 x 4 bytes per RGBA tile, the default cache capacity
of 1000 tiles corresponds to exactly 262,144,000 bytes, which is not the
2 GB stated in the SlideOpenInfo::capacity comment — even eight times the
computed figure stays below 2 GB. -/
theorem default_capacity_doc_discrepancy :
    defaultCacheBytes = 262144000 ∧
    defaultCacheBytes ≠ twoGigabytes ∧
    8 * defaultCacheBytes < twoGigabytes := by
  refine ⟨?_, ?_, ?_⟩ <;> decide

/-- C9: a default-constructed LayerExtent has xTiles = 1, yTiles = 1,
scale = 1 and downsample = 1, a default-constructed Extent has width = 1,
height = 1 and an empty layer list, and that default pyramid trivially
satisfies the non-increasing-downsample ordering invariant. -/
theorem default_extent_values :
    defaultLayerExtent.xTiles = 1 ∧ defaultLayerExtent.yTiles = 1 ∧
    defaultLayerExtent.scale = 1 ∧ defaultLayerExtent.downsample = 1 ∧
    defaultExtent.width = 1 ∧ defaultExtent.height = 1 ∧
    defaultExtent.layers = [] ∧ downsampleOrdered defaultExtent := by
  refine ⟨rfl, rfl, rfl, rfl, rfl, rfl, rfl, ?_⟩
  simp [downsampleOrdered, defaultExtent]

/-- C8: calling viewer_close_slide on a viewer with no slide currently
loaded is a no-op: it leaves the viewer's state entirely unchanged, and
the operation has no error channel through which to report a failure. -/
theorem viewer_close_slide_noop (v : ViewerState) (h : v.activeSlide = none) :
    viewer_close_slide v = v := by
  simp [viewer_close_slide, h]

/-- Witness for C8: closing on a concrete viewer with no slide loaded
returns the identical state. -/
theorem viewer_close_slide_noop_witness :
    viewer_close_slide ⟨none, emptyCache 1000⟩ =
      (⟨none, emptyCache 1000⟩ : ViewerState) :=
  viewer_close_slide_noop ⟨none, emptyCache 1000⟩ rfl

/-- C10: viewer_get_active_slide returns a null Slide handle whenever it
fails — in particular when no slide is open — and any non-null handle it
returns is exactly the complete active slide, never a partially valid
handle. -/
theorem get_active_slide_null_on_failure (v : ViewerState) :
    (v.activeSlide = none → viewer_get_active_slide v = none) ∧
    (∀ s, viewer_get_active_slide v = some s → v.activeSlide = some s) :=
  ⟨fun h => h, fun _ h => h⟩

/-- Witness for C10: a viewer with no slide open yields a null handle. -/
theorem get_active_slide_null_on_failure_witness :
    viewer_get_active_slide ⟨none, emptyCache 1000⟩ = none :=
  (get_active_slide_null_on_failure ⟨none, emptyCache 1000⟩).1 rfl

/-- C4: for every cache-miss request (layer, tile) and every HR_index
value read at dispatch time, the Stale Filter calls begin_load exactly
when layer = HR_index or layer = HR_index - 1, and otherwise drops the
request leaving the cache untouched and reporting no error; with
HR_index = 5 a miss for layer 2 is always dropped while misses for layers
4 and 5 reach begin_load. -/
theorem stale_filter_gate (c : TileCache) (hr : Nat) (k : Key) :
    ((k.1 = hr ∨ k.1 = hr - 1) →
      dispatch_miss c hr k =
        ((begin_load c k).1, .loadRequested (begin_load c k).2)) ∧
    (¬(k.1 = hr ∨ k.1 = hr - 1) →
      dispatch_miss c hr k = (c, .droppedStale)) ∧
    (∀ t, dispatch_miss c 5 (2, t) = (c, .droppedStale)) ∧
    (∀ t, (dispatch_miss c 5 (4, t)).2 =
      .loadRequested (begin_load c (4, t)).2) ∧
    (∀ t, (dispatch_miss c 5 (5, t)).2 =
      .loadRequested (begin_load c (5, t)).2) := by
  refine ⟨?_, ?_, ?_, ?_, ?_⟩
  · intro h
    simp [dispatch_miss, staleFilterAccepts, h]
  · intro h
    simp [dispatch_miss, staleFilterAccepts, h]
  · intro t
    simp [dispatch_miss, staleFilterAccepts]
  · intro t
    simp [dispatch_miss, staleFilterAccepts]
  · intro t
    simp [dispatch_miss, staleFilterAccepts]

/-- Witness for C4: concretely, with HR_index = 5 a miss for layer 2 on a
fresh cache is dropped with the cache untouched, while misses for layers
4 and 5 issue load tickets. -/
theorem stale_filter_gate_witness :
    dispatch_miss (emptyCache 10) 5 (2, 0) = (emptyCache 10, .droppedStale) ∧
    (dispatch_miss (emptyCache 10) 5 (4, 0)).2 = .loadRequested .ticket ∧
    (dispatch_miss (emptyCache 10) 5 (5, 0)).2 = .loadRequested .ticket :=
  ⟨(stale_filter_gate (emptyCache 10) 5 (2, 0)).2.2.1 0,
   ((stale_filter_gate (emptyCache 10) 5 (4, 0)).2.2.2.1 0).trans rfl,
   ((stale_filter_gate (emptyCache 10) 5 (5, 0)).2.2.2.2 0).trans rfl⟩

/-!
Key-uniqueness invariant of the cache map and the at-most-one-PENDING
guarantee of begin_load.
-/

theorem mem_keys_updateAssoc (l : List (Key × EntryState)) (k : Key) (s : EntryState)
    (x : Key) :
    x ∈ (updateAssoc l k s).map Prod.fst ↔ x ∈ l.map Prod.fst ∨ x = k := by
  induction l with
  | nil => simp [updateAssoc]
  | cons e rest ih =>
      obtain ⟨k', s'⟩ := e
      by_cases hk : k' = k
      · subst hk
        simp [updateAssoc]
        tauto
      · simp [updateAssoc, hk, ih]
        tauto

theorem keysNodup_updateAssoc (l : List (Key × EntryState)) (k : Key) (s : EntryState)
    (h : (l.map Prod.fst).Nodup) : ((updateAssoc l k s).map Prod.fst).Nodup := by
  induction l with
  | nil => simp [updateAssoc]
  | cons e rest ih =>
      obtain ⟨k', s'⟩ := e
      simp only [List.map_cons, List.nodup_cons] at h
      obtain ⟨hnotin, hnd⟩ := h
      by_cases hk : k' = k
      · subst hk
        simpa [updateAssoc] using And.intro hnotin hnd
      · simp only [updateAssoc, if_neg hk, List.map_cons, List.nodup_cons]
        refine ⟨?_, ih hnd⟩
        rw [mem_keys_updateAssoc]
        rintro (hmem | heq)
        · exact hnotin hmem
        · exact hk heq

theorem filter_key_pending_len_le_one (l : List (Key × EntryState)) (k : Key)
    (h : (l.map Prod.fst).Nodup) :
    (l.filter (fun e => decide (e.1 = k) && e.2.isPending)).length ≤ 1 := by
  induction l with
  | nil => simp
  | cons e rest ih =>
      simp only [List.map_cons, List.nodup_cons] at h
      obtain ⟨hnotin, hnd⟩ := h
      by_cases hp : (decide (e.1 = k) && e.2.isPending) = true
      · have hk : e.1 = k := of_decide_eq_true ((Bool.and_eq_true _ _).mp hp).1
        have hrest : rest.filter (fun e => decide (e.1 = k) && e.2.isPending) = [] := by
          rw [List.filter_eq_nil_iff]
          intro a ha hcontra
          have ha1 : a.1 = k := of_decide_eq_true ((Bool.and_eq_true _ _).mp hcontra).1
          exact hnotin (hk ▸ ha1 ▸ List.mem_map_of_mem Prod.fst ha)
        simp [List.filter_cons, hp, hrest]
      · simp only [List.filter_cons, if_neg hp]
        exact ih hnd

theorem pendingEntryCount_le_one_of_keysNodup (c : TileCache) (q : Key)
    (h : keysNodup c) : pendingEntryCount c q ≤ 1 :=
  filter_key_pending_len_le_one c.entries q h

theorem keysNodup_setEntry (c : TileCache) (k : Key) (s : EntryState)
    (h : keysNodup c) : keysNodup (setEntry c k s) :=
  keysNodup_updateAssoc c.entries k s h

theorem keysNodup_begin_load (c : TileCache) (k : Key) (h : keysNodup c) :
    keysNodup (begin_load c k).1 := by
  cases hs : stateOf c k with
  | ABSENT => simpa [begin_load, hs] using keysNodup_setEntry c k .PENDING h
  | EVICTED => simpa [begin_load, hs] using keysNodup_setEntry c k .PENDING h
  | PENDING => simpa [begin_load, hs] using h
  | READY b => simpa [begin_load, hs] using h

theorem keysNodup_evictLRU (c : TileCache) (h : keysNodup c) :
    keysNodup (evictLRU c) := by
  unfold evictLRU
  cases c.readyOrder.getLast? with
  | none => exact h
  | some v => exact keysNodup_setEntry c v .EVICTED h

theorem keysNodup_complete_load (c : TileCache) (k : Key) (b : Buffer)
    (h : keysNodup c) : keysNodup (complete_load c k b) := by
  cases hs : stateOf c k with
  | PENDING =>
      by_cases hc : c.capacity ≤ c.readyOrder.length
      · simpa [complete_load, hs, hc] using
          keysNodup_setEntry _ k (.READY b) (keysNodup_evictLRU c h)
      · simpa [complete_load, hs, hc] using keysNodup_setEntry c k (.READY b) h
  | ABSENT => simpa [complete_load, hs] using h
  | EVICTED => simpa [complete_load, hs] using h
  | READY b' => simpa [complete_load, hs] using h

theorem keysNodup_abort_load (c : TileCache) (k : Key) (h : keysNodup c) :
    keysNodup (abort_load c k) := by
  cases hs : stateOf c k with
  | PENDING => simpa [abort_load, hs] using keysNodup_setEntry c k .ABSENT h
  | ABSENT => simpa [abort_load, hs] using h
  | EVICTED => simpa [abort_load, hs] using h
  | READY b => simpa [abort_load, hs] using h

theorem keysNodup_lookup (c : TileCache) (k : Key) (h : keysNodup c) :
    keysNodup (lookup c k).1 := by
  cases hs : stateOf c k with
  | READY b => simpa [lookup, hs, keysNodup] using h
  | ABSENT => simpa [lookup, hs] using h
  | EVICTED => simpa [lookup, hs] using h
  | PENDING => simpa [lookup, hs] using h

theorem keysNodup_reachable (c : TileCache) (h : ReachableCache c) : keysNodup c := by
  induction h with
  | empty cap => simp [keysNodup, emptyCache]
  | load c k _ ih => exact keysNodup_begin_load c k ih
  | complete c k b _ ih => exact keysNodup_complete_load c k b ih
  | abort c k _ ih => exact keysNodup_abort_load c k ih
  | look c k _ ih => exact keysNodup_lookup c k ih

/-- C2: for every cache key, at most one PENDING entry exists at any time:
in every reachable cache state each key has at most one PENDING binding;
begin_load transitions an ABSENT or EVICTED entry to PENDING returning a
load ticket, returns "already in flight" on a PENDING entry without a
second ticket, and a second begin_load for the same key right after a
first one observes "already in flight" with no further state change. -/
theorem begin_load_at_most_one_pending (c : TileCache) (k : Key) :
    (ReachableCache c → ∀ q, pendingEntryCount c q ≤ 1) ∧
    ((stateOf c k = .ABSENT ∨ stateOf c k = .EVICTED) →
      (begin_load c k).2 = .ticket ∧ stateOf (begin_load c k).1 k = .PENDING) ∧
    (stateOf c k = .PENDING → begin_load c k = (c, .alreadyInFlight)) ∧
    (stateOf c k = .ABSENT →
      (begin_load c k).2 = .ticket ∧
      (begin_load (begin_load c k).1 k).2 = .alreadyInFlight ∧
      (begin_load (begin_load c k).1 k).1 = (begin_load c k).1) := by
  refine ⟨?_, ?_, ?_, ?_⟩
  · intro hr q
    exact pendingEntryCount_le_one_of_keysNodup c q (keysNodup_reachable c hr)
  · rintro (hs | hs) <;> simp [begin_load, hs, stateOf_setEntry_self]
  · intro hs
    simp [begin_load, hs]
  · intro hs
    have h1 : begin_load c k = (setEntry c k .PENDING, .ticket) := by
      simp [begin_load, hs]
    have hp : stateOf (setEntry c k .PENDING) k = .PENDING :=
      stateOf_setEntry_self c k .PENDING
    have h3 : begin_load (setEntry c k .PENDING) k =
        (setEntry c k .PENDING, .alreadyInFlight) := by
      simp [begin_load, hp]
    rw [h1, h3]
    exact ⟨rfl, rfl, rfl⟩

/-- Witness for C2: on a fresh cache a first begin_load for key (1, 2)
yields a ticket, the second observes "already in flight" with no state
change, and the resulting reachable state has at most one PENDING entry
for the key. -/
theorem begin_load_at_most_one_pending_witness :
    (begin_load (emptyCache 4) (1, 2)).2 = .ticket ∧
    (begin_load (begin_load (emptyCache 4) (1, 2)).1 (1, 2)).2 = .alreadyInFlight ∧
    (begin_load (begin_load (emptyCache 4) (1, 2)).1 (1, 2)).1 =
      (begin_load (emptyCache 4) (1, 2)).1 ∧
    pendingEntryCount (begin_load (emptyCache 4) (1, 2)).1 (1, 2) ≤ 1 := by
  have h := begin_load_at_most_one_pending (emptyCache 4) (1, 2)
  have h' := begin_load_at_most_one_pending (begin_load (emptyCache 4) (1, 2)).1 (1, 2)
  obtain ⟨ht, hi, he⟩ := h.2.2.2 rfl
  exact ⟨ht, hi, he,
    h'.1 (ReachableCache.load _ _ (ReachableCache.empty 4)) (1, 2)⟩

/-!
Step lemmas for inserting a fresh READY tile, with and without eviction.
-/

theorem stateOf_withReadyOrder (c : TileCache) (r : List Key) (q : Key) :
    stateOf { c with readyOrder := r } q = stateOf c q := rfl

theorem insertTile_spec_noevict (bf : Key → Buffer) (c : TileCache) (k : Key)
    (hs : stateOf c k = .ABSENT) (hc : c.readyOrder.length < c.capacity) :
    (insertTile bf c k).capacity = c.capacity ∧
    (insertTile bf c k).readyOrder = k :: c.readyOrder ∧
    stateOf (insertTile bf c k) k = .READY (bf k) ∧
    ∀ q, q ≠ k → stateOf (insertTile bf c k) q = stateOf c q := by
  have h1 : begin_load c k = (setEntry c k .PENDING, .ticket) := by
    simp [begin_load, hs]
  have hp : stateOf (setEntry c k .PENDING) k = .PENDING :=
    stateOf_setEntry_self c k .PENDING
  have hnle : ¬ (setEntry c k .PENDING).capacity ≤
      (setEntry c k .PENDING).readyOrder.length := Nat.not_le.mpr hc
  have h3 : insertTile bf c k =
      { setEntry (setEntry c k .PENDING) k (.READY (bf k)) with
        readyOrder := k :: c.readyOrder } := by
    unfold insertTile
    rw [h1]
    simp [complete_load, hp, setEntry_capacity, setEntry_readyOrder,
      Nat.not_le.mpr hc]
  refine ⟨?_, ?_, ?_, ?_⟩
  · rw [h3]
    rfl
  · rw [h3]
  · rw [h3, stateOf_withReadyOrder, stateOf_setEntry_self]
  · intro q hq
    rw [h3, stateOf_withReadyOrder, stateOf_setEntry_ne _ _ _ _ hq,
      stateOf_setEntry_ne _ _ _ _ hq]

theorem insertTile_spec_evict (bf : Key → Buffer) (c : TileCache) (k v : Key)
    (w' : List Key) (hs : stateOf c k = .ABSENT)
    (hro : c.readyOrder = (v :: w').reverse)
    (hc : c.capacity ≤ c.readyOrder.length) (hvk : v ≠ k) :
    (insertTile bf c k).capacity = c.capacity ∧
    (insertTile bf c k).readyOrder = k :: w'.reverse ∧
    stateOf (insertTile bf c k) k = .READY (bf k) ∧
    stateOf (insertTile bf c k) v = .EVICTED ∧
    ∀ q, q ≠ k → q ≠ v → stateOf (insertTile bf c k) q = stateOf c q := by
  have h1 : begin_load c k = (setEntry c k .PENDING, .ticket) := by
    simp [begin_load, hs]
  have hp : stateOf (setEntry c k .PENDING) k = .PENDING :=
    stateOf_setEntry_self c k .PENDING
  have hlast : (setEntry c k .PENDING).readyOrder.getLast? = some v := by
    show c.readyOrder.getLast? = some v
    rw [hro, List.getLast?_reverse]
    rfl
  have hdrop : (setEntry c k .PENDING).readyOrder.dropLast = w'.reverse := by
    show c.readyOrder.dropLast = w'.reverse
    rw [hro, List.reverse_cons, List.dropLast_concat]
  have hev : evictLRU (setEntry c k .PENDING) =
      { setEntry (setEntry c k .PENDING) v .EVICTED with
        readyOrder := w'.reverse } := by
    unfold evictLRU
    rw [hlast, hdrop]
  have hle : (setEntry c k .PENDING).capacity ≤
      (setEntry c k .PENDING).readyOrder.length := hc
  have h3 : insertTile bf c k =
      { setEntry { setEntry (setEntry c k .PENDING) v .EVICTED with
                   readyOrder := w'.reverse } k (.READY (bf k)) with
        readyOrder := k :: w'.reverse } := by
    unfold insertTile
    rw [h1]
    simp [complete_load, hp, setEntry_capacity, setEntry_readyOrder, hc, hev]
  refine ⟨?_, ?_, ?_, ?_, ?_⟩
  · rw [h3]
    rfl
  · rw [h3]
  · rw [h3, stateOf_withReadyOrder, stateOf_setEntry_self]
  · rw [h3, stateOf_withReadyOrder, stateOf_setEntry_ne _ _ _ _ hvk,
      stateOf_withReadyOrder, stateOf_setEntry_self]
  · intro q hqk hqv
    rw [h3, stateOf_withReadyOrder, stateOf_setEntry_ne _ _ _ _ hqk,
      stateOf_withReadyOrder, stateOf_setEntry_ne _ _ _ _ hqv,
      stateOf_setEntry_ne _ _ _ _ hqk]

/-- Filling a fresh cache with distinct tiles: after inserting the list
`ks` of distinct keys into an empty cache of positive capacity `cap`, the
recency order holds the last `min cap |ks|` keys (most recent first),
those keys are READY with their buffers, every earlier key is EVICTED and
every other key is ABSENT. -/
theorem insertTiles_fresh_spec (bf : Key → Buffer) (cap : Nat) (ks : List Key)
    (hcap : 0 < cap) (hnd : ks.Nodup) :
    (insertTiles bf (emptyCache cap) ks).capacity = cap ∧
    (insertTiles bf (emptyCache cap) ks).readyOrder =
      (ks.drop (ks.length - cap)).reverse ∧
    (∀ x ∈ ks.drop (ks.length - cap),
      stateOf (insertTiles bf (emptyCache cap) ks) x = .READY (bf x)) ∧
    (∀ x ∈ ks.take (ks.length - cap),
      stateOf (insertTiles bf (emptyCache cap) ks) x = .EVICTED) ∧
    (∀ x, x ∉ ks → stateOf (insertTiles bf (emptyCache cap) ks) x = .ABSENT) := by
  revert hnd
  induction ks using List.reverseRecOn with
  | nil =>
      intro _
      refine ⟨rfl, by simp [insertTiles, emptyCache], ?_, ?_, ?_⟩ <;>
        simp [insertTiles, emptyCache, stateOf]
  | append_singleton ks a ih =>
      intro hnd
      rw [List.nodup_append] at hnd
      have hnd' : ks.Nodup := hnd.1
      have ha : a ∉ ks := fun hm => hnd.2.2 hm (List.mem_singleton_self a)
      obtain ⟨ic, iro, irdy, iev, iabs⟩ := ih hnd'
      have hfold : insertTiles bf (emptyCache cap) (ks ++ [a]) =
          insertTile bf (insertTiles bf (emptyCache cap) ks) a := by
        simp [insertTiles, List.foldl_append]
      have habs : stateOf (insertTiles bf (emptyCache cap) ks) a = .ABSENT :=
        iabs a ha
      by_cases hlen : ks.length < cap
      · -- no eviction: the cache is not yet full
        have hm0 : ks.length - cap = 0 := Nat.sub_eq_zero_of_le (le_of_lt hlen)
        have hm0' : ks.length + 1 - cap = 0 := Nat.sub_eq_zero_of_le hlen
        have hroel : (insertTiles bf (emptyCache cap) ks).readyOrder.length <
            (insertTiles bf (emptyCache cap) ks).capacity := by
          rw [ic, iro, hm0, List.drop_zero, List.length_reverse]
          exact hlen
        obtain ⟨jc, jro, jrdy, jother⟩ :=
          insertTile_spec_noevict bf (insertTiles bf (emptyCache cap) ks) a habs hroel
        rw [hfold]
        refine ⟨jc.trans ic, ?_, ?_, ?_, ?_⟩
        · rw [jro, iro, hm0, List.drop_zero]
          simp [hm0', List.reverse_append]
        · intro x hx
          rw [List.length_append, List.length_singleton, hm0', List.drop_zero] at hx
          rcases List.mem_append.mp hx with hx | hx
          · have hxa : x ≠ a := fun h => ha (h ▸ hx)
            rw [jother x hxa]
            exact irdy x (by rw [hm0, List.drop_zero]; exact hx)
          · rw [List.mem_singleton] at hx
            subst hx
            exact jrdy
        · intro x hx
          rw [List.length_append, List.length_singleton, hm0', List.take_zero] at hx
          exact absurd hx (List.not_mem_nil x)
        · intro x hx
          rw [List.mem_append, List.mem_singleton] at hx
          push_neg at hx
          rw [jother x hx.2]
          exact iabs x hx.1
      · -- eviction: the cache is full, the head of the window is evicted
        have hge : cap ≤ ks.length := Nat.le_of_not_lt hlen
        have hwlen : (ks.drop (ks.length - cap)).length = cap := by
          rw [List.length_drop]
          omega
        cases hw : ks.drop (ks.length - cap) with
        | nil =>
            rw [hw] at hwlen
            simp at hwlen
            omega
        | cons v w' =>
            have hvdrop : v ∈ ks.drop (ks.length - cap) := by
              rw [hw]
              exact List.mem_cons_self v w'
            have hvks : v ∈ ks := (List.drop_sublist _ ks).mem hvdrop
            have hva : v ≠ a := fun h => ha (h ▸ hvks)
            have iro' : (insertTiles bf (emptyCache cap) ks).readyOrder =
                (v :: w').reverse := by rw [iro, hw]
            have hfull : (insertTiles bf (emptyCache cap) ks).capacity ≤
                (insertTiles bf (emptyCache cap) ks).readyOrder.length := by
              rw [ic, iro, List.length_reverse, hwlen]
            obtain ⟨jc, jro, jrdy, jev, jother⟩ :=
              insertTile_spec_evict bf (insertTiles bf (emptyCache cap) ks) a v w'
                habs iro' hfull hva
            have htail : ks.drop (ks.length - cap + 1) = w' := by
              rw [← List.tail_drop, hw]
              rfl
            have hm' : ks.length + 1 - cap = ks.length - cap + 1 := by omega
            have hmle : ks.length - cap + 1 ≤ ks.length := by omega
            have hgetm : ks[ks.length - cap]? = some v := by
              rw [← List.head?_drop, hw]
              rfl
            have htake : ks.take (ks.length - cap + 1) =
                ks.take (ks.length - cap) ++ [v] := by
              rw [List.take_succ, hgetm]
              rfl
            have hwnd : (ks.drop (ks.length - cap)).Nodup :=
              (List.drop_sublist _ ks).nodup hnd'
            have hvw' : v ∉ w' := by
              rw [hw] at hwnd
              exact (List.nodup_cons.mp hwnd).1
            rw [hfold]
            refine ⟨jc.trans ic, ?_, ?_, ?_, ?_⟩
            · rw [jro]
              rw [List.length_append, List.length_singleton, hm',
                List.drop_append_of_le_length hmle, htail]
              simp [List.reverse_append]
            · intro x hx
              rw [List.length_append, List.length_singleton, hm',
                List.drop_append_of_le_length hmle, htail] at hx
              rcases List.mem_append.mp hx with hx | hx
              · have hxks : x ∈ ks := (List.drop_sublist _ ks).mem
                  (by rw [hw]; exact List.mem_cons_of_mem v hx)
                have hxa : x ≠ a := fun h => ha (h ▸ hxks)
                have hxv : x ≠ v := fun h => hvw' (h ▸ hx)
                rw [jother x hxa hxv]
                exact irdy x (by rw [hw]; exact List.mem_cons_of_mem v hx)
              · rw [List.mem_singleton] at hx
                subst hx
                exact jrdy
            · intro x hx
              rw [List.length_append, List.length_singleton, hm',
                List.take_append_of_le_length hmle, htake] at hx
              rcases List.mem_append.mp hx with hx | hx
              · have hxks : x ∈ ks := (List.take_sublist _ ks).mem hx
                have hxa : x ≠ a := fun h => ha (h ▸ hxks)
                have hxv : x ≠ v := fun h =>
                  (List.disjoint_take_drop hnd' (le_refl (ks.length - cap)))
                    hx (h ▸ hvdrop)
                rw [jother x hxa hxv]
                exact iev x hx
              · rw [List.mem_singleton] at hx
                subst hx
                exact jev
            · intro x hx
              rw [List.mem_append, List.mem_singleton] at hx
              push_neg at hx
              have hxv : x ≠ v := fun h => hx.1 (h ▸ hvks)
              rw [jother x hx.2 hxv]
              exact iabs x hx.1

theorem complete_load_pending_other (c : TileCache) (p q : Key) (b : Buffer)
    (hsound : readyOrderSound c) (hp : stateOf c p = .PENDING) (hpq : p ≠ q) :
    stateOf (complete_load c q b) p = .PENDING := by
  cases hq : stateOf c q with
  | PENDING =>
      by_cases hc : c.capacity ≤ c.readyOrder.length
      · cases hv : c.readyOrder.getLast? with
        | none =>
            simp [complete_load, hq, hc, evictLRU, hv, stateOf_withReadyOrder,
              stateOf_setEntry_ne _ _ _ _ hpq, hp]
        | some v =>
            have hvmem : v ∈ c.readyOrder := by
              have hdl := List.dropLast_append_getLast? v hv
              rw [← hdl]
              exact List.mem_append_right _ (List.mem_singleton_self v)
            have hvr := hsound v hvmem
            have hpv : p ≠ v := by
              intro h
              rw [← h, hp] at hvr
              simp [EntryState.isReady] at hvr
            simp [complete_load, hq, hc, evictLRU, hv, stateOf_withReadyOrder,
              stateOf_setEntry_ne _ _ _ _ hpq, stateOf_setEntry_ne _ _ _ _ hpv, hp]
      · simp [complete_load, hq, hc, stateOf_withReadyOrder,
          stateOf_setEntry_ne _ _ _ _ hpq, hp]
  | ABSENT => simp [complete_load, hq, hp]
  | EVICTED => simp [complete_load, hq, hp]
  | READY b' => simp [complete_load, hq, hp]

theorem complete_load_pending_self (c : TileCache) (q : Key) (b : Buffer)
    (hq : stateOf c q = .PENDING) :
    stateOf (complete_load c q b) q = .READY b := by
  by_cases hc : c.capacity ≤ c.readyOrder.length
  · simp [complete_load, hq, hc, stateOf_withReadyOrder, stateOf_setEntry_self]
  · simp [complete_load, hq, hc, stateOf_withReadyOrder, stateOf_setEntry_self]

theorem abort_load_pending_self (c : TileCache) (q : Key)
    (hq : stateOf c q = .PENDING) :
    stateOf (abort_load c q) q = .ABSENT := by
  simp [abort_load, hq, stateOf_setEntry_self]

/-- C3: for every cache with positive capacity cap, after inserting
cap + k distinct READY tiles (k > 0) with no lookups in between, exactly
cap entries remain READY — the READY keys are precisely the last cap
inserted — and the k least-recently-touched entries (the k inserted
first) are EVICTED; PENDING entries are never evicted by an insertion for
another key and are only retired by completing or aborting their own
load. -/
theorem cache_eviction_bound (bf : Key → Buffer) (cap k : Nat) (ks : List Key)
    (hcap : 0 < cap) (hk : 0 < k) (hlen : ks.length = cap + k) (hnd : ks.Nodup) :
    (insertTiles bf (emptyCache cap) ks).readyOrder.length = cap ∧
    (∀ x, (∃ b, stateOf (insertTiles bf (emptyCache cap) ks) x = .READY b) ↔
      x ∈ ks.drop k) ∧
    (ks.drop k).length = cap ∧
    (∀ x ∈ ks.take k, stateOf (insertTiles bf (emptyCache cap) ks) x = .EVICTED) ∧
    (ks.take k).length = k ∧
    (∀ (c : TileCache) (p q : Key) (b : Buffer), readyOrderSound c →
      stateOf c p = .PENDING → p ≠ q →
      stateOf (complete_load c q b) p = .PENDING) ∧
    (∀ (c : TileCache) (q : Key) (b : Buffer), stateOf c q = .PENDING →
      stateOf (complete_load c q b) q = .READY b) ∧
    (∀ (c : TileCache) (q : Key), stateOf c q = .PENDING →
      stateOf (abort_load c q) q = .ABSENT) := by
  have hm : ks.length - cap = k := by omega
  obtain ⟨ic, iro, irdy, iev, iabs⟩ := insertTiles_fresh_spec bf cap ks hcap hnd
  rw [hm] at iro irdy iev
  refine ⟨?_, ?_, ?_, iev, ?_, ?_, ?_, ?_⟩
  · rw [iro, List.length_reverse, List.length_drop]
    omega
  · intro x
    constructor
    · rintro ⟨b, hb⟩
      by_cases hxks : x ∈ ks
      · rw [← List.take_append_drop k ks] at hxks
        rcases List.mem_append.mp hxks with hx | hx
        · rw [iev x hx] at hb
          exact absurd hb (by simp)
        · exact hx
      · rw [iabs x hxks] at hb
        exact absurd hb (by simp)
    · intro hx
      exact ⟨bf x, irdy x hx⟩
  · rw [List.length_drop]
    omega
  · rw [List.length_take]
    omega
  · exact fun c p q b hs hp hpq => complete_load_pending_other c p q b hs hp hpq
  · exact fun c q b hq => complete_load_pending_self c q b hq
  · exact fun c q hq => abort_load_pending_self c q hq

/-- Witness for C3: inserting three distinct tiles into a fresh cache of
capacity 2 leaves exactly 2 READY entries and marks the first-inserted
tile EVICTED. -/
theorem cache_eviction_bound_witness :
    (insertTiles (fun _ => Create_strong_buffer_empty) (emptyCache 2)
      [(0, 0), (0, 1), (0, 2)]).readyOrder.length = 2 ∧
    stateOf (insertTiles (fun _ => Create_strong_buffer_empty) (emptyCache 2)
      [(0, 0), (0, 1), (0, 2)]) (0, 0) = .EVICTED := by
  have h := cache_eviction_bound (fun _ => Create_strong_buffer_empty) 2 1
    [(0, 0), (0, 1), (0, 2)] (by decide) (by decide) (by decide) (by decide)
  exact ⟨h.1, h.2.2.2.1 (0, 0) (by decide)⟩

end Iris
